import Mathlib

/-!
Verification of the reconciliation and metrics pipeline of the
retail-electronics forecasting dashboard.

The development shallowly embeds the computational parts of the repository:
* `summary_metrics` and the date-range filter from `src/pages/performance.py`,
* the column normalization and outer-join reconciler from `src/pages/dashboard.py`,
* `determine_condition` and the recommendation loop from `src/pages/business_impact.py`.

Machine floats are modelled by `ℚ` (with `Real.sqrt` for the one square root),
NaN-able series cells by `Option ℚ`: pandas produces NaN for a missing cell and
`Series.mean` skips NaN, which is modelled by dropping `none` cells before
taking the mean.  Period timestamps are modelled as `Int`, an opaque orderable
key, exactly how the source treats them after parsing.
-/

namespace Forecasting

/-- One row of `forecast_all_warehouse.csv` as loaded by the performance page:
columns `date`, `warehouse`, `model`, `actual`, `forecast` (of these the two
value columns may hold NaN, hence `Option`). -/
structure FRow where
  date : Int
  warehouse : String
  model : String
  actual : Option ℚ
  forecast : Option ℚ
deriving DecidableEq

/-- The difference series `sub["actual"] - sub["forecast"]` of a group.
A NaN on either side yields NaN, which every later mean skips, so only the
both-present differences are collected. -/
def diffsAF (sub : List FRow) : List ℚ :=
  sub.filterMap fun r => r.actual.bind fun a => r.forecast.map fun f => a - f

/-- The difference series `sub["forecast"] - sub["actual"]`, used for the bias. -/
def diffsFA (sub : List FRow) : List ℚ :=
  sub.filterMap fun r => r.actual.bind fun a => r.forecast.map fun f => f - a

/-- Pandas `Series.mean` with its default `skipna=True`: NaN cells are already gone
from the list, and the mean of an empty series is NaN (`none`). -/
def meanQ (l : List ℚ) : Option ℚ :=
  if l.length = 0 then none else some (l.sum / l.length)

/-- The MAE `np.mean(np.abs(sub["actual"] - sub["forecast"]))` (performance.py line 29). -/
def maeOf (sub : List FRow) : Option ℚ :=
  meanQ ((diffsAF sub).map fun e => |e|)

/-- The radicand `np.mean((sub["actual"] - sub["forecast"]) ** 2)` of the RMSE
(performance.py line 30); the square root is applied by `rmseOf`. -/
def mseOf (sub : List FRow) : Option ℚ :=
  meanQ ((diffsAF sub).map fun e => e ^ 2)

/-- The square root `np.sqrt` of the mean square error (performance.py line 30). -/
noncomputable def rmseOf (sub : List FRow) : Option ℝ :=
  (mseOf sub).map fun q : ℚ => Real.sqrt (q : ℝ)

/-- The bias `np.mean(sub["forecast"] - sub["actual"])` (performance.py line 31). -/
def biasOf (sub : List FRow) : Option ℚ :=
  meanQ (diffsFA sub)

/-- The MAE interpretation ladder (performance.py lines 34-41). -/
def interpretMAE (mae : ℚ) : String :=
  if mae < 100 then "Excellent accuracy ✅"
  else if mae < 300 then "Good performance 👍"
  else if mae < 600 then "Moderate accuracy ⚠️"
  else "Poor accuracy ❌"

/-- The ladder applied to a possibly-NaN MAE: every comparison with NaN is
false in Python, so a NaN MAE falls through to the final `else` branch. -/
def interpretOf (m : Option ℚ) : String :=
  match m with
  | some q => interpretMAE q
  | none => "Poor accuracy ❌"

/-- Python `round(x, 2)`.  Python rounds half to even while `round` here
rounds half up; the two agree away from exact odd multiples of `1/200`,
and no claim in scope evaluates at such a midpoint. -/
def round2 (q : ℚ) : ℚ :=
  round (q * 100) / 100

/-- One row of the table built by `summary_metrics`.  The source stores the
already-rooted RMSE; here the rational radicand is stored so the record stays
evaluable, and `MetricSummary.rmse` below applies the root. -/
structure MetricSummary where
  warehouse : String
  model : String
  mae : Option ℚ
  mse : Option ℚ
  bias : Option ℚ
  interpretation : String
deriving DecidableEq

/-- The `RMSE` column of the summary table: `round(np.sqrt(mse), 2)`. -/
noncomputable def MetricSummary.rmse (s : MetricSummary) : Option ℝ :=
  s.mse.map fun q => round (Real.sqrt q * 100) / 100

/-- The record appended per `(warehouse, model)` group (performance.py
lines 43-50): rounded metrics plus the interpretation of the unrounded MAE. -/
def mkSummary (k : String × String) (sub : List FRow) : MetricSummary :=
  { warehouse := k.1
    model := k.2
    mae := (maeOf sub).map round2
    mse := mseOf sub
    bias := (biasOf sub).map round2
    interpretation := interpretOf (maeOf sub) }

/-- The group keys of `df.groupby(["warehouse", "model"])`.  pandas iterates
them in sorted order; only the set of keys matters to any claim, so they are
kept in (deduplicated) order of appearance. -/
def keysOf (rows : List FRow) : List (String × String) :=
  (rows.map fun r => (r.warehouse, r.model)).dedup

/-- The rows of one group. -/
def subFor (rows : List FRow) (k : String × String) : List FRow :=
  rows.filter fun r => r.warehouse = k.1 ∧ r.model = k.2

/-- The function `summary_metrics` (performance.py lines 23-51): one record per group,
skipping empty groups (`if sub.empty: continue`; a key taken from the rows
always has at least one row, so the skip never fires, just as in pandas). -/
def summary_metrics (rows : List FRow) : List MetricSummary :=
  (keysOf rows).filterMap fun k =>
    let sub := subFor rows k
    if sub.length = 0 then none else some (mkSummary k sub)

/-- The date-range filter of the performance page (performance.py line 87):
`(df["date"] >= sel_start) & (df["date"] <= sel_end)`. -/
def filterByDate (start fin : Int) (rows : List FRow) : List FRow :=
  rows.filter fun r => start ≤ r.date ∧ r.date ≤ fin

/-- The whole sidebar filter pipeline (performance.py lines 86-92): date
range first, then the warehouse and model dropdowns unless set to "All". -/
def applyFilters (start fin : Int) (selWh selModel : String)
    (rows : List FRow) : List FRow :=
  let d1 := filterByDate start fin rows
  let d2 := if selWh = "All" then d1 else d1.filter fun r => r.warehouse = selWh
  if selModel = "All" then d2 else d2.filter fun r => r.model = selModel

/-- The classifier `determine_condition` (business_impact.py lines 85-91), verbatim. -/
def determine_condition (acc fcr : ℚ) : String :=
  if acc ≥ 82 ∧ fcr < 3 then "High Demand"
  else if (75 ≤ acc ∧ acc < 82) ∨ (3 ≤ fcr ∧ fcr ≤ 4) then "Moderate Demand"
  else "Low Demand"

/-- One row of the hardcoded business summary: warehouse name, forecast
accuracy percentage, forecast cost ratio percentage. -/
structure ImpactRow where
  warehouse : String
  acc : ℚ
  fcr : ℚ
deriving DecidableEq

/-- One entry of the recommendations table. -/
structure Recommendation where
  warehouse : String
  condition : String
  priority : String
  nextStep : String
deriving DecidableEq

/-- The per-warehouse `if/elif` chain of business_impact.py lines 98-118:
`some` texts for the three known warehouses, `none` when no branch matches
(in which case the Python loop leaves `priority`/`next_step` untouched). -/
def recoTexts (wh cond : String) : Option (String × String) :=
  if wh = "Nickolson" then
    some (if cond = "High Demand" then
      ("Smoothly scale staffing and just-in-time replenishment",
       "Lock favorable shipping rates; steady reorder policy")
    else
      ("Maintain steady workforce and monitor restock rate",
       "Review inventory buffer policy"))
  else if wh = "Thompson" then
    some (if cond = "Moderate Demand" then
      ("Use flexible workforce; monitor promo impact closely",
       "Coordinate with marketing on promo timing")
    else
      ("Deploy temporary staff and adjust replenishment window",
       "Strengthen logistics monitoring"))
  else if wh = "Bakers" then
    some (if cond = "Low Demand" then
      ("Tighten procurement; implement micro-promos",
       "Audit SKU-level performance & reduce slow movers")
    else
      ("Stabilize order flow and reduce lead-time variance",
       "Reassess supplier contracts"))
  else none

/-- The recommendation loop (business_impact.py lines 93-127) with its
stale-variable semantics made explicit: the state carries the last assigned
`(priority, next_step)` pair; a row whose warehouse matches no branch reuses
the stale pair, and if there is no earlier pair the Python code raises
`UnboundLocalError`, modelled by `none`. -/
def buildRecommendations :
    List ImpactRow → Option (String × String) → Option (List Recommendation)
  | [], _ => some []
  | r :: rs, st =>
    let cond := determine_condition r.acc r.fcr
    match (recoTexts r.warehouse cond).or st with
    | none => none
    | some pn =>
      (buildRecommendations rs (some pn)).map
        fun rest => ⟨r.warehouse, cond, pn.1, pn.2⟩ :: rest

/-- The recommendations list as built for the rendered table: the loop
starts with both text variables unassigned. -/
def business_impact_recommendations (rows : List ImpactRow) :
    Option (List Recommendation) :=
  buildRecommendations rows none

/-- An actual-sales row of `weekly_sales_by_warehouse.csv` as typed by the
dashboard loader: `(nearest_warehouse, date, total_quantity)`. -/
structure Observation where
  loc : String
  period : Int
  qty : ℚ
deriving DecidableEq

/-- A forecast row of `forecast_all_warehouse.csv` as typed by the dashboard
loader after normalization: `(nearest_warehouse, date, model, forecast,
lower_95, upper_95)`, the last two optional. -/
structure ForecastPoint where
  loc : String
  period : Int
  model : String
  est : ℚ
  lo : Option ℚ
  hi : Option ℚ
deriving DecidableEq

/-- The forecast-side payload carried by a merged row. -/
structure FcSide where
  model : String
  est : ℚ
  lo : Option ℚ
  hi : Option ℚ
deriving DecidableEq

/-- One row of the outer-merged frame of dashboard.py lines 51-57: the join
key plus the actual-side and forecast-side columns, either of which is NaN
(`none`) when its input had no row for the key. -/
structure ReconciledRecord where
  loc : String
  period : Int
  actual : Option ℚ
  fc : Option FcSide
deriving DecidableEq

/-- The rows of `pd.merge(weekly_df, forecast_df, on=["nearest_warehouse",
"date"], how="outer")` before sorting, for duplicate-free keys (duplicate
keys within a side are declared a caller error): each left row paired with
its matching right row if any, then the unmatched right rows, both sides in
input order (`sort=False`). -/
def mergeRows (obs : List Observation) (fcs : List ForecastPoint) :
    List ReconciledRecord :=
  (obs.map fun o =>
    { loc := o.loc
      period := o.period
      actual := some o.qty
      fc := (fcs.find? fun f => f.loc = o.loc ∧ f.period = o.period).map
        fun f => { model := f.model, est := f.est, lo := f.lo, hi := f.hi } })
  ++ ((fcs.filter fun f =>
        ¬ obs.any fun o => o.loc = f.loc ∧ o.period = f.period).map
    fun f =>
      { loc := f.loc
        period := f.period
        actual := none
        fc := some { model := f.model, est := f.est, lo := f.lo, hi := f.hi } })

/-- The sort `.sort_values("date")` (dashboard.py line 57): a sort on the period
key only.  The source's default numpy sort is not documented stable, so the
relative order of equal periods carries no guarantee; the embedding uses
`List.insertionSort` (stable, and what numpy degrades to on small runs), and
only permutation-invariant properties and sortedness by period are claimed
of the result's order. -/
def reconcile (obs : List Observation) (fcs : List ForecastPoint) :
    List ReconciledRecord :=
  List.insertionSort (fun a b => a.period ≤ b.period) (mergeRows obs fcs)

/-- The `(location, period)` keys of the observation input. -/
def obsKeys (obs : List Observation) : List (String × Int) :=
  obs.map fun o => (o.loc, o.period)

/-- The `(location, period)` keys of the forecast input. -/
def fcKeys (fcs : List ForecastPoint) : List (String × Int) :=
  fcs.map fun f => (f.loc, f.period)

/-- The `(location, period)` keys of a merged output. -/
def recKeys (l : List ReconciledRecord) : List (String × Int) :=
  l.map fun r => (r.loc, r.period)

/-- No forecast key coincides with an observation key. -/
def disjointInputs (obs : List Observation) (fcs : List ForecastPoint) : Prop :=
  ∀ f ∈ fcs, ∀ o ∈ obs, ¬ (o.loc = f.loc ∧ o.period = f.period)

/-- Exactly one side of a merged row is populated. -/
def oneSided (r : ReconciledRecord) : Prop :=
  (r.actual.isSome ∧ r.fc = none) ∨ (r.actual = none ∧ r.fc.isSome)

/-- The total order the spec asserts on the reconciler output: ascending by
period, ties broken by location name. -/
def specRecLE (a b : ReconciledRecord) : Prop :=
  a.period < b.period ∨ (a.period = b.period ∧ a.loc ≤ b.loc)

instance : DecidableRel specRecLE := fun a b => by
  unfold specRecLE; infer_instance

/-- A raw CSV table: a header and one association list per row (dashboard.py
works on the frame before typing when it renames columns). -/
structure Table where
  cols : List String
  rows : List (List (String × String))
deriving DecidableEq

/-- Every row has exactly the header's columns, in header order. -/
def Table.wf (t : Table) : Prop :=
  ∀ row ∈ t.rows, row.map Prod.fst = t.cols

/-- The cell of a row under a column name, as in `row[col]`. -/
def getCell (c : String) : List (String × String) → Option String
  | [] => none
  | kv :: rest => if kv.1 = c then some kv.2 else getCell c rest

/-- Column rename as in `df.rename`: rename the key in the header and in
every row. -/
def renameKey (old new : String) (row : List (String × String)) :
    List (String × String) :=
  row.map fun kv => if kv.1 = old then (new, kv.2) else kv

/-- Table-level column rename. -/
def Table.renameCol (t : Table) (old new : String) : Table :=
  { cols := t.cols.map fun c => if c = old then new else c
    rows := t.rows.map (renameKey old new) }

/-- Constant-column assignment as in `df[c] = v`: append a constant column. -/
def Table.addConstCol (t : Table) (c v : String) : Table :=
  { cols := t.cols ++ [c], rows := t.rows.map fun row => row ++ [(c, v)] }

/-- The forecast-frame normalization of dashboard.py lines 39-43: alias the
alternate `warehouse` column to the canonical `nearest_warehouse` when only
the alternate exists, then fall back to a constant `unknown` column when no
location column exists at all. -/
def normalizeForecastTable (t : Table) : Table :=
  let t1 :=
    if "warehouse" ∈ t.cols ∧ "nearest_warehouse" ∉ t.cols
    then t.renameCol "warehouse" "nearest_warehouse" else t
  if "nearest_warehouse" ∉ t1.cols
  then t1.addConstCol "nearest_warehouse" "unknown" else t1

/-- Spec-side reading of the metric contract: a record contributes exactly
when both the actual and the forecast are present. -/
def bothPresent (r : FRow) : Bool :=
  r.actual.isSome && r.forecast.isSome

/-- Spec-side reading: the (actual, forecast) pairs of the contributing
records of a partition, in order. -/
def contribPairs (sub : List FRow) : List (ℚ × ℚ) :=
  (sub.filter bothPresent).map fun r => (r.actual.getD 0, r.forecast.getD 0)

/-- Spec-side `MAE = mean(|actual - forecast|)` over contributing records. -/
def specMAE (sub : List FRow) : Option ℚ :=
  meanQ ((contribPairs sub).map fun p => |p.1 - p.2|)

/-- Spec-side `mean((actual - forecast)^2)` over contributing records. -/
def specMSE (sub : List FRow) : Option ℚ :=
  meanQ ((contribPairs sub).map fun p => (p.1 - p.2) ^ 2)

/-- Spec-side `Bias = mean(forecast - actual)` over contributing records. -/
def specBias (sub : List FRow) : Option ℚ :=
  meanQ ((contribPairs sub).map fun p => p.2 - p.1)

instance (obs : List Observation) (fcs : List ForecastPoint) :
    Decidable (disjointInputs obs fcs) := by
  unfold disjointInputs; infer_instance

instance (r : ReconciledRecord) : Decidable (oneSided r) := by
  unfold oneSided; infer_instance

instance (t : Table) : Decidable (t.wf) := by
  unfold Table.wf; infer_instance

/-- The spec's end-to-end example: Nickolson actuals 100 and 120 against
model m1 forecasts 90 and 130, one week apart. -/
def exRows : List FRow :=
  [⟨0, "Nickolson", "m1", some 100, some 90⟩,
   ⟨7, "Nickolson", "m1", some 120, some 130⟩]

/-- A one-row input whose single `("w", "m")` partition has a forecast but
no actual, so its contributing count is zero. -/
def zeroContribRows : List FRow :=
  [⟨0, "w", "m", none, some 50⟩]

/-- Two rows of one partition whose signed errors are `3` and `-3`. -/
def c9Rows : List FRow :=
  [⟨0, "w", "m", some 3, some 0⟩, ⟨1, "w", "m", some 0, some 3⟩]

/-- Two observations sharing a period, with locations out of lexical order. -/
def tieObs : List Observation :=
  [⟨"b", 1, 10⟩, ⟨"a", 1, 20⟩]

/-- A known row followed by a row for the unrecognized location `Zeta`. -/
def staleRows : List ImpactRow :=
  [⟨"Nickolson", 83.7, 2.85⟩, ⟨"Zeta", 50, 10⟩]

/-- One observation and one forecast with no key in common. -/
def disjObs : List Observation :=
  [⟨"a", 1, 5⟩]

/-- See `disjObs`. -/
def disjFcs : List ForecastPoint :=
  [⟨"b", 2, "m", 7, none, none⟩]

/-- A forecast table carrying its location under the alternate column name. -/
def altTable : Table :=
  ⟨["warehouse", "date"], [[("warehouse", "thompson"), ("date", "d1")]]⟩

theorem mem_keysOf {rows : List FRow} {k : String × String} :
    k ∈ keysOf rows ↔ ∃ r ∈ rows, r.warehouse = k.1 ∧ r.model = k.2 := by
  simp [keysOf, List.mem_dedup, List.mem_map, Prod.ext_iff]

theorem mem_summary_metrics {rows : List FRow} {s : MetricSummary} :
    s ∈ summary_metrics rows ↔
      ∃ k ∈ keysOf rows, subFor rows k ≠ [] ∧ s = mkSummary k (subFor rows k) := by
  simp only [summary_metrics, List.mem_filterMap]
  constructor
  · rintro ⟨k, hk, hsome⟩
    by_cases h0 : (subFor rows k).length = 0
    · simp [h0] at hsome
    · simp only [h0, if_false, Option.some.injEq] at hsome
      exact ⟨k, hk, by simpa [List.length_eq_zero] using h0, hsome.symm⟩
  · rintro ⟨k, hk, hne, rfl⟩
    refine ⟨k, hk, ?_⟩
    simp [List.length_eq_zero, hne]

/-- C6: `determine_condition` evaluates its rules in priority order with the
first match winning: accuracy ≥ 82 and fcr < 3 yields High Demand; otherwise
75 ≤ accuracy < 82 or 3 ≤ fcr ≤ 4 yields Moderate Demand; otherwise Low
Demand; in particular at (82, 2.9), (80, 3.5) and (70, 5) it yields High,
Moderate and Low respectively. -/
theorem determine_condition_priority_rules :
    (∀ acc fcr : ℚ, 82 ≤ acc → fcr < 3 →
      determine_condition acc fcr = "High Demand") ∧
    (∀ acc fcr : ℚ, ¬ (82 ≤ acc ∧ fcr < 3) →
      ((75 ≤ acc ∧ acc < 82) ∨ (3 ≤ fcr ∧ fcr ≤ 4)) →
      determine_condition acc fcr = "Moderate Demand") ∧
    (∀ acc fcr : ℚ, ¬ (82 ≤ acc ∧ fcr < 3) →
      ¬ ((75 ≤ acc ∧ acc < 82) ∨ (3 ≤ fcr ∧ fcr ≤ 4)) →
      determine_condition acc fcr = "Low Demand") ∧
    determine_condition 82 2.9 = "High Demand" ∧
    determine_condition 80 3.5 = "Moderate Demand" ∧
    determine_condition 70 5 = "Low Demand" := by
  refine ⟨?_, ?_, ?_, ?_, ?_, ?_⟩
  · intro acc fcr h1 h2
    simp only [determine_condition]
    rw [if_pos ⟨h1, h2⟩]
  · intro acc fcr h1 h2
    simp only [determine_condition]
    rw [if_neg h1, if_pos h2]
  · intro acc fcr h1 h2
    simp only [determine_condition]
    rw [if_neg h1, if_neg h2]
  · norm_num [determine_condition]
  · norm_num [determine_condition]
  · norm_num [determine_condition]

/-- Witness for C6 at a concrete input. -/
theorem determine_condition_priority_rules_app :
    determine_condition 90 1 = "High Demand" :=
  determine_condition_priority_rules.1 90 1 (by norm_num) (by norm_num)

/-- C7: the interpretation of every emitted `MetricSummary` is the banding
of its partition's MAE, and the bands have inclusive lower bounds:
MAE < 100 Excellent, 100 ≤ MAE < 300 Good, 300 ≤ MAE < 600 Moderate,
600 ≤ MAE Poor. -/
theorem interpretation_banding :
    (∀ rows : List FRow, ∀ s ∈ summary_metrics rows,
      s.interpretation = interpretOf (maeOf (subFor rows (s.warehouse, s.model)))) ∧
    (∀ mae : ℚ, mae < 100 → interpretMAE mae = "Excellent accuracy ✅") ∧
    (∀ mae : ℚ, 100 ≤ mae → mae < 300 → interpretMAE mae = "Good performance 👍") ∧
    (∀ mae : ℚ, 300 ≤ mae → mae < 600 → interpretMAE mae = "Moderate accuracy ⚠️") ∧
    (∀ mae : ℚ, 600 ≤ mae → interpretMAE mae = "Poor accuracy ❌") := by
  refine ⟨?_, ?_, ?_, ?_, ?_⟩
  · intro rows s hs
    rcases mem_summary_metrics.mp hs with ⟨k, _, _, rfl⟩
    simp [mkSummary]
  · intro mae h
    simp only [interpretMAE]
    rw [if_pos h]
  · intro mae h1 h2
    simp only [interpretMAE]
    rw [if_neg (not_lt.mpr h1), if_pos h2]
  · intro mae h1 h2
    simp only [interpretMAE]
    rw [if_neg (not_lt.mpr (by linarith)), if_neg (not_lt.mpr h1), if_pos h2]
  · intro mae h1
    simp only [interpretMAE]
    rw [if_neg (not_lt.mpr (by linarith)), if_neg (not_lt.mpr (by linarith)),
      if_neg (not_lt.mpr h1)]

/-- Witness for C7 at a concrete MAE in each band. -/
theorem interpretation_banding_app :
    interpretMAE 150 = "Good performance 👍" :=
  interpretation_banding.2.2.1 150 (by norm_num) (by norm_num)

/-- C10: the performance-page date filter is inclusive at both endpoints: a
record survives exactly when `start ≤ period` and `period ≤ end`, both for
the bare date filter and for the full pipeline with both dropdowns at
"All". -/
theorem date_filter_inclusive (start fin : Int) (rows : List FRow) (r : FRow) :
    (r ∈ filterByDate start fin rows ↔
      r ∈ rows ∧ start ≤ r.date ∧ r.date ≤ fin) ∧
    (r ∈ applyFilters start fin "All" "All" rows ↔
      r ∈ rows ∧ start ≤ r.date ∧ r.date ≤ fin) := by
  constructor
  · simp [filterByDate, List.mem_filter]
  · simp [applyFilters, filterByDate, List.mem_filter]

/-- Witness for C10: records dated exactly on the start and on the end of
the selected range are retained. -/
theorem date_filter_inclusive_app :
    (⟨5, "w", "m", none, none⟩ : FRow) ∈ applyFilters 5 9 "All" "All"
      [⟨5, "w", "m", none, none⟩, ⟨9, "w", "m", none, none⟩,
       ⟨10, "w", "m", none, none⟩] ∧
    (⟨9, "w", "m", none, none⟩ : FRow) ∈ applyFilters 5 9 "All" "All"
      [⟨5, "w", "m", none, none⟩, ⟨9, "w", "m", none, none⟩,
       ⟨10, "w", "m", none, none⟩] :=
  ⟨(date_filter_inclusive 5 9 _ _).2.mpr ⟨by simp, by norm_num, by norm_num⟩,
   (date_filter_inclusive 5 9 _ _).2.mpr ⟨by simp, by norm_num, by norm_num⟩⟩

/-- C5 (amended): `summary_metrics` emits a summary exactly for the
`(warehouse, model)` partitions that contain at least one record — a
both-sides-present record is not required — and an empty input yields an
empty result rather than an error. -/
theorem summary_metrics_partition_presence (rows : List FRow) :
    (rows = [] → summary_metrics rows = []) ∧
    (∀ s ∈ summary_metrics rows,
      ∃ r ∈ rows, r.warehouse = s.warehouse ∧ r.model = s.model) ∧
    (∀ r ∈ rows,
      ∃ s ∈ summary_metrics rows,
        s.warehouse = r.warehouse ∧ s.model = r.model) := by
  refine ⟨?_, ?_, ?_⟩
  · rintro rfl; rfl
  · intro s hs
    rcases mem_summary_metrics.mp hs with ⟨k, hk, _, rfl⟩
    rcases mem_keysOf.mp hk with ⟨r, hr, hw, hm⟩
    exact ⟨r, hr, by simp [mkSummary, hw, hm]⟩
  · intro r hr
    have hk : (r.warehouse, r.model) ∈ keysOf rows :=
      mem_keysOf.mpr ⟨r, hr, rfl, rfl⟩
    have hrsub : r ∈ subFor rows (r.warehouse, r.model) := by
      simp [subFor, hr]
    have hne : subFor rows (r.warehouse, r.model) ≠ [] := by
      intro h; rw [h] at hrsub; exact absurd hrsub (List.not_mem_nil r)
    exact ⟨mkSummary (r.warehouse, r.model) (subFor rows (r.warehouse, r.model)),
      mem_summary_metrics.mpr ⟨_, hk, hne, rfl⟩, by simp [mkSummary]⟩

/-- Witness for C5 (amended) at a concrete input. -/
theorem summary_metrics_partition_presence_app :
    ∃ s ∈ summary_metrics zeroContribRows,
      s.warehouse = "w" ∧ s.model = "m" :=
  (summary_metrics_partition_presence zeroContribRows).2.2
    ⟨0, "w", "m", none, some 50⟩ (by simp [zeroContribRows])

/-- Counterexample to C5 as stated: on a one-row input whose only partition
has zero both-sides-present records, `summary_metrics` still emits a row
for that partition, with NaN metrics and the fall-through interpretation. -/
theorem summary_metrics_zero_contrib_emitted :
    summary_metrics zeroContribRows
      = [{ warehouse := "w", model := "m", mae := none, mse := none,
           bias := none, interpretation := "Poor accuracy ❌" }] ∧
    diffsAF (subFor zeroContribRows ("w", "m")) = [] := by
  have hsub : subFor zeroContribRows ("w", "m") = zeroContribRows := by
    norm_num [subFor, zeroContribRows]
  have hdiff : diffsAF zeroContribRows = [] := by
    norm_num [diffsAF, zeroContribRows, List.filterMap_cons]
  have hdiffFA : diffsFA zeroContribRows = [] := by
    norm_num [diffsFA, zeroContribRows, List.filterMap_cons]
  have hkeys : keysOf zeroContribRows = [("w", "m")] := by
    rw [keysOf, zeroContribRows]
    rw [List.map_cons, List.map_nil, List.dedup_cons_of_not_mem (by simp),
      List.dedup_nil]
  constructor
  · rw [summary_metrics, hkeys]
    simp only [List.filterMap_cons, List.filterMap_nil, hsub]
    rw [if_neg (by simp [hsub, zeroContribRows])]
    simp [mkSummary, maeOf, mseOf, biasOf, hdiff, hdiffFA, meanQ, interpretOf]
  · rw [hsub, hdiff]

theorem diffsAF_eq_contrib (sub : List FRow) :
    diffsAF sub = (contribPairs sub).map fun p => p.1 - p.2 := by
  induction sub with
  | nil => rfl
  | cons r rest ih =>
    rcases hra : r.actual with _ | a
    · simpa [diffsAF, contribPairs, bothPresent, hra, List.filterMap_cons,
        List.filter_cons] using ih
    · rcases hrf : r.forecast with _ | f
      · simpa [diffsAF, contribPairs, bothPresent, hra, hrf, List.filterMap_cons,
          List.filter_cons] using ih
      · simpa [diffsAF, contribPairs, bothPresent, hra, hrf, List.filterMap_cons,
          List.filter_cons] using ih

theorem diffsFA_eq_contrib (sub : List FRow) :
    diffsFA sub = (contribPairs sub).map fun p => p.2 - p.1 := by
  induction sub with
  | nil => rfl
  | cons r rest ih =>
    rcases hra : r.actual with _ | a
    · simpa [diffsFA, contribPairs, bothPresent, hra, List.filterMap_cons,
        List.filter_cons] using ih
    · rcases hrf : r.forecast with _ | f
      · simpa [diffsFA, contribPairs, bothPresent, hra, hrf, List.filterMap_cons,
          List.filter_cons] using ih
      · simpa [diffsFA, contribPairs, bothPresent, hra, hrf, List.filterMap_cons,
          List.filter_cons] using ih

/-- C2: all three metrics are means over exactly the records with both sides
present, and on the spec's two-row Nickolson example `summary_metrics`
yields MAE 10, RMSE 10, Bias 0 and the Excellent interpretation. -/
theorem summary_both_present_and_example :
    (∀ sub : List FRow,
      maeOf sub = specMAE sub ∧ mseOf sub = specMSE sub ∧
        biasOf sub = specBias sub) ∧
    summary_metrics exRows
      = [{ warehouse := "Nickolson", model := "m1", mae := some 10,
           mse := some 100, bias := some 0,
           interpretation := "Excellent accuracy ✅" }] ∧
    (summary_metrics exRows).map MetricSummary.rmse = [some 10] := by
  have hgen : ∀ sub : List FRow,
      maeOf sub = specMAE sub ∧ mseOf sub = specMSE sub ∧
        biasOf sub = specBias sub := by
    intro sub
    refine ⟨?_, ?_, ?_⟩
    · rw [maeOf, specMAE, diffsAF_eq_contrib, List.map_map]; rfl
    · rw [mseOf, specMSE, diffsAF_eq_contrib, List.map_map]; rfl
    · rw [biasOf, specBias, diffsFA_eq_contrib]
  have hkeys : keysOf exRows = [("Nickolson", "m1")] := by
    rw [keysOf, exRows]
    rw [List.map_cons, List.map_cons, List.map_nil,
      List.dedup_cons_of_mem (by simp), List.dedup_cons_of_not_mem (by simp),
      List.dedup_nil]
  have hsub : subFor exRows ("Nickolson", "m1") = exRows := by
    norm_num [subFor, exRows]
  have hdiff : diffsAF exRows = [10, -10] := by
    norm_num [diffsAF, exRows, List.filterMap_cons]
  have hdiffFA : diffsFA exRows = [-10, 10] := by
    norm_num [diffsFA, exRows, List.filterMap_cons]
  have hsm : summary_metrics exRows
      = [{ warehouse := "Nickolson", model := "m1", mae := some 10,
           mse := some 100, bias := some 0,
           interpretation := "Excellent accuracy ✅" }] := by
    rw [summary_metrics, hkeys]
    simp only [List.filterMap_cons, List.filterMap_nil, hsub]
    rw [if_neg (by simp [exRows])]
    norm_num [mkSummary, maeOf, mseOf, biasOf, hdiff, hdiffFA, meanQ, interpretOf,
      interpretMAE, round2]
  refine ⟨hgen, hsm, ?_⟩
  rw [hsm]
  have hsqrt : Real.sqrt (100 : ℝ) = 10 := by
    rw [show (100 : ℝ) = 10 ^ 2 by norm_num]
    exact Real.sqrt_sq (by norm_num)
  simp only [List.map_cons, List.map_nil, MetricSummary.rmse, Option.map_some']
  norm_num [hsqrt, round_eq]

theorem getCell_renameKey (old new : String) (row : List (String × String))
    (hnew : new ∉ row.map Prod.fst) :
    getCell new (renameKey old new row) = getCell old row := by
  induction row with
  | nil => rfl
  | cons kv rest ih =>
    simp only [List.map_cons, List.mem_cons, not_or] at hnew
    by_cases hk : kv.1 = old
    · simp only [renameKey, List.map_cons]
      rw [if_pos hk]
      simp [getCell, hk]
    · simp only [renameKey, List.map_cons]
      rw [if_neg hk]
      show (if kv.1 = new then some kv.2
          else getCell new
            (List.map (fun kv => if kv.1 = old then (new, kv.2) else kv) rest))
        = if kv.1 = old then some kv.2 else getCell old rest
      rw [if_neg (fun h => hnew.1 h.symm), if_neg hk]
      exact ih hnew.2

theorem getCell_addConst (c v : String) (row : List (String × String))
    (hc : c ∉ row.map Prod.fst) :
    getCell c (row ++ [(c, v)]) = some v := by
  induction row with
  | nil => simp [getCell]
  | cons kv rest ih =>
    simp only [List.map_cons, List.mem_cons, not_or] at hc
    simp only [List.cons_append]
    show (if kv.1 = c then some kv.2 else getCell c (rest ++ [(c, v)])) = some v
    rw [if_neg (fun h => hc.1 h.symm)]
    exact ih hc.2

/-- C8: the forecast-table normalization never discards a record (row count
preserved), always leaves a canonical location column in place, aliases the
alternate `warehouse` column to `nearest_warehouse` when only the alternate
exists (values carried over), and when no location column exists at all it
assigns every record the sentinel `unknown` location. -/
theorem normalizeForecastTable_spec (t : Table) (hwf : t.wf) :
    (normalizeForecastTable t).rows.length = t.rows.length ∧
    "nearest_warehouse" ∈ (normalizeForecastTable t).cols ∧
    ("warehouse" ∈ t.cols → "nearest_warehouse" ∉ t.cols →
      (normalizeForecastTable t).rows
          = t.rows.map (renameKey "warehouse" "nearest_warehouse") ∧
      ∀ row ∈ t.rows,
        getCell "nearest_warehouse" (renameKey "warehouse" "nearest_warehouse" row)
          = getCell "warehouse" row) ∧
    ("warehouse" ∉ t.cols → "nearest_warehouse" ∉ t.cols →
      ∀ row ∈ (normalizeForecastTable t).rows,
        getCell "nearest_warehouse" row = some "unknown") := by
  by_cases hN : "nearest_warehouse" ∈ t.cols
  · have hform : normalizeForecastTable t = t := by
      simp [normalizeForecastTable, hN]
    rw [hform]
    exact ⟨rfl, hN, fun _ h2 => absurd hN h2, fun _ h2 => absurd hN h2⟩
  · by_cases hW : "warehouse" ∈ t.cols
    · have hmem : "nearest_warehouse"
          ∈ (t.renameCol "warehouse" "nearest_warehouse").cols := by
        simp only [Table.renameCol, List.mem_map]
        exact ⟨"warehouse", hW, by simp⟩
      have hform : normalizeForecastTable t
          = t.renameCol "warehouse" "nearest_warehouse" := by
        simp [normalizeForecastTable, hN, hW, hmem]
      rw [hform]
      refine ⟨by simp [Table.renameCol], hmem, fun _ _ => ⟨rfl, ?_⟩,
        fun h1 _ => absurd hW h1⟩
      intro row hrow
      exact getCell_renameKey _ _ row (by rw [hwf row hrow]; exact hN)
    · have hform : normalizeForecastTable t
          = t.addConstCol "nearest_warehouse" "unknown" := by
      -- first branch is skipped for lack of the alternate column, second fires
        simp [normalizeForecastTable, hN, hW]
      rw [hform]
      refine ⟨by simp [Table.addConstCol], by simp [Table.addConstCol],
        fun h1 _ => absurd h1 hW, fun _ _ => ?_⟩
      intro row hrow
      simp only [Table.addConstCol, List.mem_map] at hrow
      obtain ⟨row0, hrow0, rfl⟩ := hrow
      exact getCell_addConst _ _ row0 (by rw [hwf row0 hrow0]; exact hN)

/-- Witness for C8 on a table whose location sits under the alternate name. -/
theorem normalizeForecastTable_spec_app :
    (normalizeForecastTable altTable).rows.length = altTable.rows.length :=
  (normalizeForecastTable_spec altTable (by decide)).1

/-- C3 (code behavior at the failing input): when a row for the
unrecognized location `Zeta` follows a known row, the loop still emits a
recommendation for `Zeta`, carrying the previous iteration's action texts,
instead of emitting nothing for the unknown location. -/
theorem business_impact_unknown_location_stale :
    business_impact_recommendations staleRows
      = some
          [⟨"Nickolson", "High Demand",
            "Smoothly scale staffing and just-in-time replenishment",
            "Lock favorable shipping rates; steady reorder policy"⟩,
           ⟨"Zeta", "Low Demand",
            "Smoothly scale staffing and just-in-time replenishment",
            "Lock favorable shipping rates; steady reorder policy"⟩] := by
  have hz1 : ("Zeta" : String) ≠ "Nickolson" := by decide
  have hz2 : ("Zeta" : String) ≠ "Thompson" := by decide
  have hz3 : ("Zeta" : String) ≠ "Bakers" := by decide
  norm_num [business_impact_recommendations, buildRecommendations, staleRows,
    recoTexts, determine_condition, Option.or, hz1, hz2, hz3]

/-- C4 (amended): the reconciler output is sorted ascending by period; the
relative order of records with equal periods is not guaranteed — in
particular no location-based tie-break is applied. -/
theorem reconcile_sorted_by_period (obs : List Observation)
    (fcs : List ForecastPoint) :
    (reconcile obs fcs).Sorted fun a b => a.period ≤ b.period := by
  haveI : IsTotal ReconciledRecord fun a b => a.period ≤ b.period :=
    ⟨fun a b => le_total a.period b.period⟩
  haveI : IsTrans ReconciledRecord fun a b => a.period ≤ b.period :=
    ⟨fun _ _ _ h1 h2 => le_trans h1 h2⟩
  exact List.sorted_insertionSort _ _

/-- Counterexample to C4 as stated: two equal-period observations given in
non-lexical location order are not reordered by the date-only sort (at this
two-row size numpy's sort is insertion sort), so the output violates the
claimed period-then-location total order. -/
theorem reconcile_tie_order_refuted :
    ¬ (reconcile tieObs []).Pairwise specRecLE := by
  have hcalc : reconcile tieObs []
      = [⟨"b", 1, some 10, none⟩, ⟨"a", 1, some 20, none⟩] := by
    norm_num [reconcile, mergeRows, tieObs, List.insertionSort,
      List.orderedInsert]
  rw [hcalc]
  intro h
  rcases List.pairwise_cons.mp h with ⟨h1, _⟩
  rcases h1 _ (List.mem_singleton.mpr rfl) with hlt | ⟨_, hle⟩
  · exact absurd hlt (by norm_num)
  · have hba : ¬ (("b" : String) ≤ "a") := by
      simp
      decide
    exact hba hle

theorem mergeRows_keys (obs : List Observation) (fcs : List ForecastPoint)
    (k : String × Int) :
    k ∈ recKeys (mergeRows obs fcs) ↔ k ∈ obsKeys obs ∨ k ∈ fcKeys fcs := by
  simp only [mergeRows, recKeys, obsKeys, fcKeys, List.map_append,
    List.mem_append, List.map_map, List.mem_map, Function.comp,
    List.mem_filter]
  constructor
  · rintro (⟨o, ho, rfl⟩ | ⟨f, ⟨hf, _⟩, rfl⟩)
    · exact Or.inl ⟨o, ho, rfl⟩
    · exact Or.inr ⟨f, hf, rfl⟩
  · rintro (⟨o, ho, rfl⟩ | ⟨f, hf, rfl⟩)
    · exact Or.inl ⟨o, ho, rfl⟩
    · by_cases hany : ∃ o ∈ obs, o.loc = f.loc ∧ o.period = f.period
      · obtain ⟨o, ho, h1, h2⟩ := hany
        exact Or.inl ⟨o, ho, by rw [h1, h2]⟩
      · refine Or.inr ⟨f, ⟨hf, ?_⟩, rfl⟩
        simpa [List.any_eq_true] using hany

/-- C1: the `(location, period)` key set of the reconciler output is
exactly the union of the input key sets, and on inputs sharing no keys the
output has |observations| + |forecasts| records, each with exactly one side
populated. -/
theorem reconcile_key_union_and_disjoint_sizes (obs : List Observation)
    (fcs : List ForecastPoint) :
    (∀ k : String × Int,
      k ∈ recKeys (reconcile obs fcs) ↔ k ∈ obsKeys obs ∨ k ∈ fcKeys fcs) ∧
    (disjointInputs obs fcs →
      (reconcile obs fcs).length = obs.length + fcs.length ∧
      ∀ r ∈ reconcile obs fcs, oneSided r) := by
  have hperm : (reconcile obs fcs).Perm (mergeRows obs fcs) :=
    List.perm_insertionSort _ _
  constructor
  · intro k
    rw [recKeys, (hperm.map fun r => (r.loc, r.period)).mem_iff]
    exact mergeRows_keys obs fcs k
  · intro hd
    have hfind : ∀ o ∈ obs,
        (fcs.find? fun f => f.loc = o.loc ∧ f.period = o.period) = none := by
      intro o ho
      rw [List.find?_eq_none]
      intro f hf
      simpa using fun h1 h2 => hd f hf o ho ⟨h1.symm, h2.symm⟩
    have hfilter : (fcs.filter fun f =>
        ¬ obs.any fun o => o.loc = f.loc ∧ o.period = f.period) = fcs := by
      rw [List.filter_eq_self]
      intro f hf
      simpa [List.any_eq_true] using fun o ho h1 h2 => hd f hf o ho ⟨h1, h2⟩
    constructor
    · rw [hperm.length_eq, mergeRows, List.length_append, List.length_map,
        hfilter, List.length_map]
    · intro r hr
      rw [hperm.mem_iff] at hr
      rcases List.mem_append.mp hr with hl | hrt
      · obtain ⟨o, ho, rfl⟩ := List.mem_map.mp hl
        exact Or.inl ⟨by simp, by rw [hfind o ho]; rfl⟩
      · rw [hfilter] at hrt
        obtain ⟨f, _, rfl⟩ := List.mem_map.mp hrt
        exact Or.inr ⟨rfl, by simp⟩

/-- Witness for C1 on concrete disjoint inputs. -/
theorem reconcile_key_union_and_disjoint_sizes_app :
    (reconcile disjObs disjFcs).length = disjObs.length + disjFcs.length ∧
    ∀ r ∈ reconcile disjObs disjFcs, oneSided r :=
  (reconcile_key_union_and_disjoint_sizes disjObs disjFcs).2 (by decide)

theorem list_sum_sq_dev (μ : ℚ) (l : List ℚ) :
    (l.map fun y => (y - μ) ^ 2).sum
      = (l.map fun y => y ^ 2).sum - 2 * μ * l.sum + l.length * μ ^ 2 := by
  induction l with
  | nil => simp
  | cons a t ih =>
    simp only [List.map_cons, List.sum_cons, ih, List.length_cons]
    push_cast
    ring

theorem list_sum_sq_nonneg (μ : ℚ) (l : List ℚ) :
    0 ≤ (l.map fun y => (y - μ) ^ 2).sum :=
  List.sum_nonneg (by
    intro y hy
    obtain ⟨z, _, rfl⟩ := List.mem_map.mp hy
    positivity)

theorem list_sum_sq_eq_zero_iff (μ : ℚ) (l : List ℚ) :
    (l.map fun y => (y - μ) ^ 2).sum = 0 ↔ ∀ y ∈ l, y = μ := by
  induction l with
  | nil => simp
  | cons a t ih =>
    simp only [List.map_cons, List.sum_cons, List.mem_cons]
    rw [add_eq_zero_iff_of_nonneg (by positivity) (list_sum_sq_nonneg μ t), ih]
    constructor
    · rintro ⟨h1, h2⟩
      have ha : a = μ :=
        sub_eq_zero.mp ((pow_eq_zero_iff (by norm_num)).mp h1)
      exact fun y hy => hy.elim (fun h => h ▸ ha) (h2 y)
    · intro h
      exact ⟨by rw [h a (Or.inl rfl)]; ring, fun y hy => h y (Or.inr hy)⟩

theorem list_sum_const (l : List ℚ) (c : ℚ) (h : ∀ y ∈ l, y = c) :
    l.sum = l.length * c := by
  induction l with
  | nil => simp
  | cons a t ih =>
    simp only [List.sum_cons, List.length_cons, h a (List.mem_cons_self a t)]
    rw [ih fun y hy => h y (List.mem_cons_of_mem a hy)]
    push_cast
    ring

/-- C9: for any partition with at least one contributing record the MAE and
the RMSE are nonnegative, and with more than one contributing record the
RMSE dominates the MAE, with equality exactly when all absolute errors are
equal. -/
theorem mae_rmse_inequality (sub : List FRow) (m : ℚ) (x : ℝ)
    (hm : maeOf sub = some m) (hx : rmseOf sub = some x) :
    0 ≤ m ∧ 0 ≤ x ∧
      (2 ≤ (diffsAF sub).length →
        (m : ℝ) ≤ x ∧
        (x = m ↔ ∀ e₁ ∈ diffsAF sub, ∀ e₂ ∈ diffsAF sub, |e₁| = |e₂|)) := by
  have hnn : (diffsAF sub).length ≠ 0 := by
    intro h
    rw [maeOf, meanQ, List.length_map, if_pos h] at hm
    exact Option.noConfusion hm
  have hm' : m = ((diffsAF sub).map fun e => |e|).sum / (diffsAF sub).length := by
    rw [maeOf, meanQ, List.length_map, if_neg hnn] at hm
    exact (Option.some.inj hm).symm
  have hq' : mseOf sub
      = some (((diffsAF sub).map fun e => e ^ 2).sum
          / ((diffsAF sub).length : ℚ)) := by
    rw [mseOf, meanQ, List.length_map, if_neg hnn]
  have hx' : x = Real.sqrt
      (((((diffsAF sub).map fun e => e ^ 2).sum
          / ((diffsAF sub).length : ℚ)) : ℚ) : ℝ) := by
    rw [rmseOf, hq', Option.map_some'] at hx
    exact (Option.some.inj hx).symm
  set es := diffsAF sub with hes
  set n : ℚ := ((es.length : ℚ)) with hn
  set S1 : ℚ := (es.map fun e => |e|).sum with hS1
  set S2 : ℚ := (es.map fun e => e ^ 2).sum with hS2
  have hn0 : n ≠ 0 := by
    rw [hn]
    exact_mod_cast hnn
  have hnpos : 0 < n := by
    rw [hn]
    exact_mod_cast Nat.pos_of_ne_zero hnn
  have hS1nn : 0 ≤ S1 := by
    rw [hS1]
    refine List.sum_nonneg ?_
    intro y hy
    obtain ⟨e, _, rfl⟩ := List.mem_map.mp hy
    exact abs_nonneg e
  have hS2nn : 0 ≤ S2 := by
    rw [hS2]
    refine List.sum_nonneg ?_
    intro y hy
    obtain ⟨e, _, rfl⟩ := List.mem_map.mp hy
    positivity
  have hqnn : 0 ≤ S2 / n := div_nonneg hS2nn hnpos.le
  have hmnn : 0 ≤ m := by
    rw [hm']
    exact div_nonneg hS1nn hnpos.le
  have hxnn : 0 ≤ x := by
    rw [hx']
    exact Real.sqrt_nonneg _
  have hsq : ((es.map fun e => |e|).map fun y => y ^ 2).sum = S2 := by
    rw [List.map_map, hS2]
    congr 1
    refine List.map_congr_left ?_
    intro e _
    simp [Function.comp, sq_abs]
  have hdev : ((es.map fun e => |e|).map fun y => (y - m) ^ 2).sum
      = S2 - S1 ^ 2 / n := by
    rw [list_sum_sq_dev, hsq, List.length_map, ← hn, ← hS1, hm']
    field_simp
    ring
  have hdevnn : 0 ≤ S2 - S1 ^ 2 / n := hdev ▸ list_sum_sq_nonneg m _
  have hqm : S2 / n - m ^ 2 = (S2 - S1 ^ 2 / n) / n := by
    rw [hm']
    field_simp
    ring
  have hkey : m ^ 2 ≤ S2 / n := by
    have h1 : 0 ≤ (S2 - S1 ^ 2 / n) / n := div_nonneg hdevnn hnpos.le
    linarith [hqm]
  refine ⟨hmnn, hxnn, fun _ => ⟨?_, ?_⟩⟩
  · rw [hx', Real.le_sqrt (by exact_mod_cast hmnn) (by exact_mod_cast hqnn)]
    exact_mod_cast hkey
  · have hiff1 : x = (m : ℝ) ↔ S2 / n = m ^ 2 := by
      rw [hx']
      constructor
      · intro h
        have h2 : ((S2 / n : ℚ) : ℝ) = ((m : ℝ)) ^ 2 := by
          rw [← h]
          exact (Real.sq_sqrt (by exact_mod_cast hqnn)).symm
        exact_mod_cast h2
      · intro h
        rw [show ((S2 / n : ℚ) : ℝ) = ((m : ℝ)) ^ 2 by exact_mod_cast h]
        exact Real.sqrt_sq (by exact_mod_cast hmnn)
    have hiff2 : S2 / n = m ^ 2 ↔ S2 - S1 ^ 2 / n = 0 := by
      constructor
      · intro h
        have := hqm
        rw [h] at this
        have h0 : (S2 - S1 ^ 2 / n) / n = 0 := by linarith
        exact (div_eq_zero_iff.mp h0).resolve_right hn0
      · intro h
        have : (S2 - S1 ^ 2 / n) / n = 0 := by rw [h]; simp
        linarith [hqm, this]
    have hiff3 : S2 - S1 ^ 2 / n = 0 ↔ ∀ y ∈ es.map fun e => |e|, y = m := by
      rw [← hdev, list_sum_sq_eq_zero_iff]
    have hiff4 : (∀ y ∈ es.map fun e => |e|, y = m)
        ↔ ∀ e₁ ∈ es, ∀ e₂ ∈ es, |e₁| = |e₂| := by
      constructor
      · intro h e₁ h₁ e₂ h₂
        rw [h _ (List.mem_map_of_mem _ h₁), h _ (List.mem_map_of_mem _ h₂)]
      · intro h y hy
        obtain ⟨e, he, rfl⟩ := List.mem_map.mp hy
        have hconst : ∀ z ∈ es.map fun e => |e|, z = |e| := by
          intro z hz
          obtain ⟨e', he', rfl⟩ := List.mem_map.mp hz
          exact h e' he' e he
        have hsum : S1 = n * |e| := by
          rw [hS1, list_sum_const _ _ hconst, List.length_map, ← hn]
        rw [hm', hsum]
        field_simp
    exact hiff1.trans (hiff2.trans (hiff3.trans hiff4))

/-- Witness for C9 on a two-record partition with errors 3 and -3. -/
theorem mae_rmse_inequality_app :
    0 ≤ (3 : ℚ) ∧ 0 ≤ Real.sqrt ((9 : ℚ) : ℝ) ∧
      (2 ≤ (diffsAF c9Rows).length →
        ((3 : ℚ) : ℝ) ≤ Real.sqrt ((9 : ℚ) : ℝ) ∧
        (Real.sqrt ((9 : ℚ) : ℝ) = ((3 : ℚ) : ℝ) ↔
          ∀ e₁ ∈ diffsAF c9Rows, ∀ e₂ ∈ diffsAF c9Rows, |e₁| = |e₂|)) :=
  mae_rmse_inequality c9Rows 3 (Real.sqrt ((9 : ℚ) : ℝ))
    (by norm_num [maeOf, diffsAF, meanQ, c9Rows, List.filterMap_cons])
    (by norm_num [rmseOf, mseOf, diffsAF, meanQ, c9Rows, List.filterMap_cons])

end Forecasting
